import Mathlib

/-!
Shallow embedding of the Task Printer core (job queue/worker orchestration and
receipt rendering) and proofs of the specified properties.

Sources embedded:
- `task_printer/printing/render.py` — word wrap, long-word breaking, dynamic
  font sizing, and the two canvas renderers.
- `task_printer/printing/worker.py` — per-item print routine, `print_tasks`,
  the worker loop, the in-memory job registry with pruning, and enqueue.
- `task_printer/web/schemas.py` — `Options._clamp_delay`.

Fonts are external (Pillow): a resolved font at a given pixel size is modelled
as an opaque measurer giving the pixel width (resp. height) of a string, the
pair bundled as `FontEnv`.  Filesystem/transport facts (icon paths, image
files, printer connectivity) are modelled as an explicit environment record.
Python floats that only ever flow through comparisons and clamps
(`tear_delay_seconds`) are modelled as rationals.
-/

namespace TaskPrinter

/-- Accumulator loop for `pySplit`: collect the current word (reversed) and
emit it at each whitespace run or at the end. -/
def splitWsAux : List Char → List Char → List String
  | [], acc => if acc.isEmpty then [] else [String.mk acc.reverse]
  | c :: cs, acc =>
      if c.isWhitespace then
        (if acc.isEmpty then [] else [String.mk acc.reverse]) ++ splitWsAux cs []
      else splitWsAux cs (c :: acc)

/-- Python `str.split()` (no argument): split on whitespace runs, dropping
empty pieces. -/
def pySplit (s : String) : List String :=
  splitWsAux s.toList []

/-- Accumulator loop for `splitChar`. -/
def splitCharAux (sep : Char) : List Char → List Char → List String
  | [], acc => [String.mk acc.reverse]
  | c :: cs, acc =>
      if c = sep then String.mk acc.reverse :: splitCharAux sep cs []
      else splitCharAux sep cs (c :: acc)

/-- Python `str.split(sep)` for a one-character separator: empty pieces are
kept. -/
def splitChar (sep : Char) (s : String) : List String :=
  splitCharAux sep s.toList []

/-- Python `str.strip()`: remove leading and trailing whitespace. -/
def pyStrip (s : String) : String :=
  String.mk (((s.toList.dropWhile Char.isWhitespace).reverse.dropWhile
    Char.isWhitespace).reverse)

/-- Python `sep in word` for a one-character `sep`. -/
def containsChar (s : String) (c : Char) : Bool :=
  s.toList.any (fun x => x = c)

/-- Fuel-driven countdown loop; `start - stop` is enough fuel for any
positive `step`, since each emitted element lowers `start` by at least 1. -/
def rangeDownAux (stop step : ℤ) : ℕ → ℤ → List ℤ
  | 0, _ => []
  | n + 1, start =>
      if start ≤ stop then [] else start :: rangeDownAux stop step n (start - step)

/-- Python `range(start, stop, -step)` for a positive `step`: counts down from
`start` while strictly above `stop`. -/
def rangeDown (start stop step : ℤ) : List ℤ :=
  if step ≤ 0 then [] else rangeDownAux stop step (start - stop).toNat start

/-- A resolved font: pixel width and pixel height measurement of a string
(`_measure_text`), indexed by the requested font size (`resolve_font`).
`resolve_font` is assumed to succeed; its failure raises and aborts the
render, a path no claim exercises. -/
structure FontEnv where
  w : ℤ → String → ℕ
  h : ℤ → String → ℕ

/-- One resolved font (a size applied to a `FontEnv` width measurer). -/
abbrev Measure := String → ℕ

/-- Inner loop of `_break_long_word`'s separator branch: fold over
`word.split(sep)` keeping a `current` accumulator, flushing it when the
candidate (with the separator re-attached to every non-final part) no longer
fits.  Flushed pieces are NOT width-checked. -/
def breakSepLoop (font : Measure) (maxW : ℕ) (sep : Char) :
    List String → String → List String
  | [], current => if current.isEmpty then [] else [current]
  | p :: rest, current =>
      let isLast := rest.isEmpty
      let test0 := current ++ (if current.isEmpty then "" else sep.toString) ++ p
      let test := if isLast then test0 else test0 ++ sep.toString
      if font test ≤ maxW then breakSepLoop font maxW sep rest test
      else
        (if current.isEmpty then [] else [current]) ++
          breakSepLoop font maxW sep rest (p ++ (if isLast then "" else sep.toString))

/-- Inner loop of `_break_long_word`'s character-by-character branch. -/
def breakCharsLoop (font : Measure) (maxW : ℕ) :
    List Char → String → List String
  | [], current => if current.isEmpty then [] else [current]
  | c :: rest, current =>
      let test := current.push c
      if font test ≤ maxW then breakCharsLoop font maxW rest test
      else
        (if current.isEmpty then [] else [current]) ++
          breakCharsLoop font maxW rest c.toString

/-- The separators `_break_long_word` tries, in order. -/
def sepChars : List Char := ['-', '_', '.']

/-- `_break_long_word(word, font, max_width)`: for a word longer than 8
characters containing `-`, `_` or `.`, split at the first such separator
(re-attaching it to non-final pieces); otherwise split character by
character. -/
def break_long_word (font : Measure) (maxW : ℕ) (word : String) : List String :=
  if word.isEmpty then [""]
  else
    match (if word.length > 8 then sepChars.find? (fun sep => containsChar word sep) else none) with
    | some sep => breakSepLoop font maxW sep (splitChar sep word) ""
    | none =>
        let r := breakCharsLoop font maxW word.toList ""
        if r.isEmpty then [""] else r

/-- Main loop of `wrap_text_improved`: greedy word wrap with long-word
breaking. -/
def wrapLoop (font : Measure) (maxW : ℕ) : List String → String → List String
  | [], current => if current.isEmpty then [] else [current]
  | word :: rest, current =>
      let test := current ++ (if current.isEmpty then "" else " ") ++ word
      if font test ≤ maxW then wrapLoop font maxW rest test
      else if current.isEmpty then
        break_long_word font maxW word ++ wrapLoop font maxW rest ""
      else
        [current] ++
          (if font word > maxW then
            break_long_word font maxW word ++ wrapLoop font maxW rest ""
          else wrapLoop font maxW rest word)

/-- `wrap_text_improved(text, font, max_width)` from `render.py`. -/
def wrap_text_improved (font : Measure) (text : String) (maxW : ℕ) : List String :=
  if text.isEmpty then [""]
  else
    let r := wrapLoop font maxW (pySplit text) ""
    if r.isEmpty then [""] else r

/-- `_would_wrap_by_few_chars(text, font, max_width, max_overflow_chars)`. -/
def would_wrap_by_few_chars (font : Measure) (text : String) (maxW : ℕ)
    (maxOverflow : ℤ) : Bool :=
  if (pyStrip text).isEmpty then false
  else
    let lines := wrap_text_improved font text maxW
    if lines.length ≤ 1 then false
    else if lines.length > 2 then false
    else
      let lastLine := pyStrip (lines.getLast?.getD "")
      if (lastLine.length : ℤ) ≤ maxOverflow then true
      else if (pySplit text).length = 2 then true
      else decide (text.length ≤ 30)

/-- Configuration mapping consumed by the core, one optional field per key the
code reads; `none` means the key is absent and the code's inline default
applies. -/
structure Config where
  task_font_size : Option ℤ := none
  min_font_size : Option ℤ := none
  max_font_size : Option ℤ := none
  max_overflow_chars_for_dynamic_sizing : Option ℤ := none
  enable_dynamic_font_sizing : Option Bool := none
  receipt_width : Option ℤ := none
  print_left_margin : Option ℤ := none
  print_right_margin : Option ℤ := none
  print_top_margin : Option ℤ := none
  print_bottom_margin : Option ℤ := none
  text_safety_margin : Option ℤ := none
  flair_separator_width : Option ℤ := none
  flair_separator_gap : Option ℤ := none
  flair_col_width : Option ℤ := none
  min_text_width : Option ℤ := none
  flair_target_height : Option ℤ := none
  print_separators : Option Bool := none
  cut_feed_lines : Option ℤ := none

/-- Candidate update of `find_optimal_font_size`'s general scan: replace the
best `(size, line_count)` seen so far when the new size gives fewer lines, or
as many lines at a larger size (or when there is no candidate yet). -/
def betterCandidate (s : ℤ) (lc : ℕ) (best : Option (ℤ × ℕ)) : Option (ℤ × ℕ) :=
  match best with
  | none => some (s, lc)
  | some (bs, bl) =>
      if lc < bl ∨ (lc = bl ∧ s > bs) then some (s, lc) else some (bs, bl)

/-- General downward size scan of `find_optimal_font_size`: track the best
`(size, line_count)` candidate among sizes wrapping into at most 6 lines;
stop early on exactly `target` lines at a size at least `minS + 8`. -/
def scanSizes (fe : FontEnv) (text : String) (maxW : ℕ) (target : ℕ) (minS : ℤ) :
    List ℤ → Option (ℤ × ℕ) → Option (ℤ × ℕ)
  | [], best => best
  | s :: rest, best =>
      let lc := (wrap_text_improved (fe.w s) text maxW).length
      if lc ≤ 6 then
        if lc = target ∧ s ≥ minS + 8 then betterCandidate s lc best
        else scanSizes fe text maxW target minS rest (betterCandidate s lc best)
      else scanSizes fe text maxW target minS rest best

/-- `find_optimal_font_size(text, config, max_width, target_lines)` from
`render.py`, returning the chosen size (the returned font is always the
resolution of that size). -/
def find_optimal_font_size (fe : FontEnv) (cfg : Config) (text : String)
    (maxW : ℕ) (target : ℕ := 3) : ℤ :=
  let base := cfg.task_font_size.getD 72
  let minS := cfg.min_font_size.getD 32
  let maxS := cfg.max_font_size.getD (min 96 (base + 24))
  let maxOverflow := cfg.max_overflow_chars_for_dynamic_sizing.getD 3
  let fromScan : Unit → ℤ := fun _ =>
    match scanSizes fe text maxW target minS (rangeDown maxS (minS - 1) 4) none with
    | some (s, _) => s
    | none => base
  if would_wrap_by_few_chars (fe.w base) text maxW maxOverflow then
    match (rangeDown (base - 2) (max minS (base - 20)) 2).find?
        (fun s => fe.w s text ≤ maxW) with
    | some s => s
    | none => fromScan ()
  else fromScan ()

/-- A monochrome raster: fixed width, computed height (pixel contents carry no
information any specified property depends on). -/
structure Canvas where
  width : ℤ
  height : ℤ
deriving DecidableEq, Repr

/-- `render_large_text_image(text, config)` from `render.py` (the saved config
is assumed present; its absence raises before any canvas exists). -/
def render_large_text_image (fe : FontEnv) (cfg : Config) (text : String) : Canvas :=
  let width := cfg.receipt_width.getD 512
  let fontSize := cfg.task_font_size.getD 72
  let leftMargin := cfg.print_left_margin.getD 16
  let rightMargin := cfg.print_right_margin.getD 16
  let topMargin := cfg.print_top_margin.getD 12
  let bottomMargin := cfg.print_bottom_margin.getD 16
  let extraSpacing : ℤ := 10
  let maxTextWidth := (max 1 (width - (leftMargin + rightMargin))).toNat
  let size :=
    if cfg.enable_dynamic_font_sizing.getD true then
      find_optimal_font_size fe cfg text maxTextWidth
    else fontSize
  let lines := wrap_text_improved (fe.w size) text maxTextWidth
  let lineHeight : ℤ := max 1 (fe.h size "A")
  let imgHeight := topMargin + bottomMargin + (lineHeight + extraSpacing) * lines.length
  ⟨width, imgHeight⟩

/-- `render_task_with_flair_image(text, flair_image, config)` from
`render.py`.  `flair` is the loaded flair raster's pixel dimensions, `none`
when loading raised (the code then falls back to text-only rendering).
Scaling/pasting geometry of the flair raster does not influence the canvas
dimensions (the flair column height is the fixed `flair_target_height`), so
only the dimension computation is embedded. -/
def render_task_with_flair_image (fe : FontEnv) (cfg : Config) (text : String)
    (flair : Option (ℕ × ℕ)) : Canvas :=
  let width := cfg.receipt_width.getD 512
  let fontSize := cfg.task_font_size.getD 72
  match flair with
  | none => render_large_text_image fe cfg text
  | some _ =>
    let leftMargin := cfg.print_left_margin.getD 16
    let rightMargin := cfg.print_right_margin.getD 16
    let topMargin := cfg.print_top_margin.getD 12
    let bottomMargin := cfg.print_bottom_margin.getD 16
    let extraSpacing : ℤ := 10
    let sepWidth := cfg.flair_separator_width.getD 3
    let gapSep := cfg.flair_separator_gap.getD 14
    let flairContentTarget0 := cfg.flair_col_width.getD 256
    -- int(width * 0.45): float multiply then truncation toward zero
    let minTextWidth := cfg.min_text_width.getD (max 180 (Int.tdiv (width * 45) 100))
    let flairBlockWidth0 := gapSep + sepWidth + gapSep + flairContentTarget0
    let textColWidth0 := width - leftMargin - rightMargin - flairBlockWidth0
    let shrunk : ℤ × ℤ :=
      if textColWidth0 < minTextWidth then
        let delta := minTextWidth - textColWidth0
        let fct := max 128 (flairContentTarget0 - delta)
        let tcw := width - leftMargin - rightMargin - (gapSep + sepWidth + gapSep + fct)
        (max tcw 1, max fct 1)
      else (textColWidth0, flairContentTarget0)
    let textColWidth := shrunk.1
    let flairContentTarget := shrunk.2
    if textColWidth ≤ 0 ∨ flairContentTarget ≤ 0 then
      render_large_text_image fe cfg text
    else
      let textSafetyMargin := cfg.text_safety_margin.getD 8
      let safeTextWidth := (max 1 (textColWidth - textSafetyMargin)).toNat
      let size :=
        if cfg.enable_dynamic_font_sizing.getD true then
          find_optimal_font_size fe cfg text safeTextWidth
        else fontSize
      let lines := wrap_text_improved (fe.w size) text safeTextWidth
      let lineHeight : ℤ := max 1 (fe.h size "A")
      let textBlockHeight :=
        topMargin + bottomMargin + (lineHeight + extraSpacing) * lines.length
      let flairTargetHeight := cfg.flair_target_height.getD 256
      let flairTotalH := topMargin + bottomMargin + flairTargetHeight
      let outH := max textBlockHeight flairTotalH
      ⟨width, outH⟩

/-! ## Worker model (`task_printer/printing/worker.py`) -/

/-- A task item as the worker normalizes it: `subtitle`, `task`, and an
optional flair mapping with a `type` string and a `value` string. -/
structure Item where
  subtitle : String
  task : String
  flair : Option (String × String) := none

/-- Per-job print options (`options` mapping); only `tear_delay_seconds` is
read. -/
structure PrintOptions where
  tear_delay_seconds : Option ℚ := none

/-- External facts the worker depends on: the saved configuration
(`load_config`, `none` when setup is incomplete), printer connectivity
(`_connect_printer`), icon resolution (`resolve_icon_path` + existence),
placeholder generation success, plain image-file existence
(`os.path.isfile`), and the pixel dimensions of a loadable flair source
(`none` when `Image.open` fails). -/
structure WorkerEnv where
  config : Option Config
  connectOk : Bool
  iconResolves : String → Bool
  placeholderOk : Bool
  fileExists : String → Bool
  dimsOf : String → Option (ℕ × ℕ)

/-- Transport-level event issued while printing one job. -/
inductive Ev where
  | text (s : String)
  | setCmd
  | qrCode (payload : String)
  | image (c : Canvas)
  | cut
  | sleep (d : ℚ)
deriving DecidableEq, Repr

/-- The 48-dash separator line printed around each task. -/
def sepLine : String := String.mk (List.replicate 48 '-') ++ "\n"

/-- `_generate_icon_placeholder` draws a square image of side
`min(192, max(96, width // 4))`. -/
def placeholderDims (width : ℤ) : ℕ × ℕ :=
  let size := (min 192 (max 96 (Int.fdiv width 4))).toNat
  (size, size)

/-- The flair raster dimensions `_print_subtitle_task_item` ends up composing
with, if any: a resolved icon file, the generated placeholder, or an existing
image file. -/
def flairSource (env : WorkerEnv) (cfg : Config) (ftype fval : String) :
    Option (ℕ × ℕ) :=
  if ftype = "icon" then
    if env.iconResolves fval then (env.dimsOf fval).getD (0, 0) |> some
    else if env.placeholderOk then some (placeholderDims (cfg.receipt_width.getD 512))
    else none
  else if env.fileExists fval then some ((env.dimsOf fval).getD (0, 0))
  else none

/-- `_print_subtitle_task_item(p, idx, item, config, cut=...)`: the list of
transport events it issues.  An item whose task text is empty after trimming
issues nothing.  Render calls are total here (fonts resolve), so the
flair try/except only matters through source resolution. -/
def printItem (fe : FontEnv) (env : WorkerEnv) (cfg : Config) (item : Item)
    (cut : Bool) : List Ev :=
  if (pyStrip item.task).isEmpty then []
  else
    let separators := cfg.print_separators.getD true
    let combined : Option Canvas :=
      match item.flair with
      | none => none
      | some (ftype, fval) =>
        if (ftype = "icon" ∨ ftype = "image") ∧ ¬fval.isEmpty then
          (flairSource env cfg ftype fval).map
            (fun dims => render_task_with_flair_image fe cfg (pyStrip item.task) (some dims))
        else none
    let qrEvs : List Ev :=
      match item.flair with
      | none => []
      | some (ftype, fval) =>
        if ftype = "qr" ∧ ¬fval.isEmpty then [Ev.qrCode fval] else []
    let img : Canvas :=
      match combined with
      | some c => c
      | none => render_large_text_image fe cfg (pyStrip item.task)
    let extra := cfg.cut_feed_lines.getD 2
    [Ev.text "\n\n", Ev.setCmd]
      ++ (if separators then [Ev.text sepLine] else [])
      ++ (if ¬item.subtitle.isEmpty then [Ev.setCmd, Ev.text (item.subtitle ++ "\n")] else [])
      ++ qrEvs
      ++ [Ev.image img]
      ++ [Ev.setCmd]
      ++ (if separators then [Ev.text sepLine] else [])
      ++ (if extra > 0 then [Ev.text (String.mk (List.replicate extra.toNat '\n'))] else [])
      ++ (if cut then [Ev.cut] else [])

/-- Effective delay `print_tasks` computes:
`float(options.get("tear_delay_seconds", 0) or 0)` with 0 on conversion
failure. -/
def tearDelay (options : Option PrintOptions) : ℚ :=
  match options with
  | none => 0
  | some o => o.tear_delay_seconds.getD 0

/-- The per-item loop of `print_tasks`: items are numbered from 1; in
tear-off mode a sleep of `delay` follows every item except the last
(`i < total`). -/
def printLoop (fe : FontEnv) (env : WorkerEnv) (cfg : Config) (tear : Bool)
    (delay : ℚ) (total : ℕ) : ℕ → List Item → List Ev
  | _, [] => []
  | i, item :: rest =>
      printItem fe env cfg item (!tear)
        ++ (if tear ∧ i < total then [Ev.sleep delay] else [])
        ++ printLoop fe env cfg tear delay total (i + 1) rest

/-- Outcome of `print_tasks`: the transport events issued and either a
returned boolean or a propagating exception message. -/
structure PrintOutcome where
  trace : List Ev
  result : Except String Bool

/-- `print_tasks(subtitle_tasks, options)` from `worker.py`: raises when no
config is saved; returns `False` when connecting raises (any exception inside
the `try` is caught and logged); otherwise prints every item, in tear-off
mode sleeping between consecutive items instead of cutting. -/
def print_tasks (fe : FontEnv) (env : WorkerEnv) (items : List Item)
    (options : Option PrintOptions) : PrintOutcome :=
  match env.config with
  | none => ⟨[], .error "No config found. Please complete setup at /setup."⟩
  | some cfg =>
    if env.connectOk then
      let delay := tearDelay options
      let tear := decide (delay > 0)
      ⟨printLoop fe env cfg tear delay items.length 1 items, .ok true⟩
    else ⟨[], .ok false⟩

/-- `_do_test_print(config_override)`: raises when neither an override nor a
saved config exists; otherwise prints a fixed two-item payload with cutting
enabled via `print_tasks_with_config`, which returns `False` on any failure
(connect included) and never raises. -/
def do_test_print (env : WorkerEnv) (override : Option Config) :
    Except String Bool :=
  match override.orElse (fun _ => env.config) with
  | none => .error "No config found. Please complete setup at /setup."
  | some _ => .ok env.connectOk

/-- A queue entry as `enqueue_tasks` / `enqueue_test_print` build it. -/
structure QueuedJob where
  kind : String
  job_id : String
  payload : List Item := []
  options : Option PrintOptions := none
  configOverride : Option Config := none

/-- One iteration of `_print_worker` for a dequeued job, after the initial
`status="running"` update: the final status written and the value of the
job record's `error` field update (`none` when the code writes no error
message).  Total by construction — the loop body catches every exception. -/
def runJob (fe : FontEnv) (env : WorkerEnv) (j : QueuedJob) :
    String × Option String :=
  if j.kind = "tasks" then
    match (print_tasks fe env j.payload j.options).result with
    | .ok b => (if b then "success" else "error", none)
    | .error e => ("error", some e)
  else if j.kind = "test" then
    match do_test_print env j.configOverride with
    | .ok b => (if b then "success" else "error", none)
    | .error e => ("error", some e)
  else ("error", some "unknown_job_type")

/-- The worker loop over a queue of jobs: every job is processed in FIFO
order and receives a final status; no job's failure stops the loop. -/
def workerRun (fe : FontEnv) (env : WorkerEnv) (q : List QueuedJob) :
    List (String × String × Option String) :=
  q.map (fun j => (j.job_id, runJob fe env j))

/-- Job-status transition event observable through the registry. -/
inductive JobEv where
  | running (id : String)
  | finished (id : String) (status : String)
deriving DecidableEq, Repr

/-- The sequence of status transitions the worker performs on a queue: each
dequeued job is marked running, processed, then marked with its final
status, before the next job is dequeued. -/
def workerTrace (fe : FontEnv) (env : WorkerEnv) (q : List QueuedJob) :
    List JobEv :=
  q.flatMap (fun j =>
    [JobEv.running j.job_id, JobEv.finished j.job_id (runJob fe env j).1])

/-- The sleep durations occurring in a transport trace, in order. -/
def sleepsOf (tr : List Ev) : List ℚ :=
  tr.filterMap (fun e => match e with | .sleep d => some d | _ => none)

/-- Number of cut commands in a transport trace. -/
def cutCount (tr : List Ev) : ℕ :=
  (tr.filter (fun e => match e with | .cut => true | _ => false)).length

/-- The job ids in the order they transition to Running. -/
def runningIds (tr : List JobEv) : List String :=
  tr.filterMap (fun e => match e with | .running i => some i | _ => none)

/-- `Options._clamp_delay` from `web/schemas.py`: `None` stays absent,
negative values become absent, values above 60 clamp to 60, zero becomes
absent. -/
def clamp_delay (v : Option ℚ) : Option ℚ :=
  match v with
  | none => none
  | some f =>
    if f < 0 then none
    else if f > 60 then some 60
    else if f > 0 then some f else none

/-! ## Job registry (`JOBS`, `_prune_jobs_if_needed`, `_create_job`) -/

/-- A registry record, reduced to the fields pruning reads.  `created_at` is
an ISO-8601 UTC timestamp; lexicographic string order on those is
chronological order, so it is modelled as a natural number. -/
structure RegJob where
  id : String
  created_at : ℕ
deriving DecidableEq, Repr

/-- The registry: `JOBS` dict values in insertion order (keys are fresh UUID
hex strings). -/
abbrev Registry := List RegJob

/-- First job with minimal `created_at` —
`sorted(JOBS.values(), key=created_at)[0]` with Python's stable sort. -/
def oldestJob : RegJob → List RegJob → RegJob
  | a, [] => a
  | a, b :: t => oldestJob (if b.created_at < a.created_at then b else a) t

/-- `_prune_jobs_if_needed()`: a no-op while the registry holds at most
`jobsMax` entries; otherwise pops the oldest-by-`created_at` job. -/
def prune_jobs_if_needed (jobsMax : ℕ) (reg : Registry) : Registry :=
  if reg.length ≤ jobsMax then reg
  else
    match reg with
    | [] => reg
    | a :: t => reg.eraseP (fun x => x.id = (oldestJob a t).id)

/-- `_create_job(kind, meta)`: prune, then insert the fresh job (a fresh dict
key appends in insertion order). -/
def create_job (jobsMax : ℕ) (reg : Registry) (j : RegJob) : Registry :=
  prune_jobs_if_needed jobsMax reg ++ [j]

/-! ## Concrete instances used by witnesses and counterexamples -/

/-- A size-independent font whose glyphs are all 10 px wide. -/
def lenFont : Measure := fun t => 10 * t.length

/-- A font family whose glyph width equals the font size. -/
def sizedFont : FontEnv :=
  { w := fun s t => s.toNat * t.length, h := fun _ _ => 20 }

/-- A size-independent font family (10 px glyphs). -/
def flatFont : FontEnv :=
  { w := fun _ t => 10 * t.length, h := fun _ _ => 20 }

/-- Configuration whose explicit `max_font_size` lies below the base
`task_font_size`. -/
def cfgBaseAboveMax : Config :=
  { task_font_size := some 100, min_font_size := some 32, max_font_size := some 36 }

/-- Environment with a saved config and a reachable printer. -/
def envOk : WorkerEnv :=
  { config := some {}, connectOk := true, iconResolves := fun _ => false,
    placeholderOk := true, fileExists := fun _ => false, dimsOf := fun _ => none }

/-- Environment with a saved config but an unreachable printer
(`_connect_printer` raises). -/
def envNoConnect : WorkerEnv :=
  { config := some {}, connectOk := false, iconResolves := fun _ => false,
    placeholderOk := true, fileExists := fun _ => false, dimsOf := fun _ => none }

/-- A plain one-item payload. -/
def itemA : Item := { subtitle := "Chores", task := "Mount Pegboard" }

/-- An item whose text is whitespace only. -/
def itemBlank : Item := { subtitle := "x", task := "   " }

/-- A queued "tasks" job. -/
def jobTasksA : QueuedJob := { kind := "tasks", job_id := "j1", payload := [itemA] }

/-- A second queued job, with a distinct id. -/
def jobTasksB : QueuedJob := { kind := "tasks", job_id := "j2", payload := [] }

/-- Per-job options as every producer builds them: the raw request value is
passed through `Options._clamp_delay` before it reaches the worker. -/
def clampedOptions (v : ℚ) : Option PrintOptions :=
  some ⟨clamp_delay (some v)⟩

/-! ## Registry lemmas -/

theorem oldestJob_mem (a : RegJob) (l : List RegJob) : oldestJob a l ∈ a :: l := by
  induction l generalizing a with
  | nil => simp [oldestJob]
  | cons b t ih =>
      rw [oldestJob]
      have h := ih (if b.created_at < a.created_at then b else a)
      rcases List.mem_cons.mp h with h1 | h1
      · rw [h1]
        split <;> simp
      · exact List.mem_cons_of_mem _ (List.mem_cons_of_mem _ h1)

theorem oldestJob_le (a : RegJob) (l : List RegJob) :
    ∀ x ∈ a :: l, (oldestJob a l).created_at ≤ x.created_at := by
  induction l generalizing a with
  | nil =>
      intro x hx
      rw [List.mem_singleton] at hx
      subst hx
      simp [oldestJob]
  | cons b t ih =>
      intro x hx
      rw [oldestJob]
      have hc : (oldestJob (if b.created_at < a.created_at then b else a) t).created_at
          ≤ (if b.created_at < a.created_at then b else a).created_at :=
        ih _ _ (List.mem_cons_self _ _)
      rcases List.mem_cons.mp hx with rfl | hx1
      · refine le_trans hc ?_
        split <;> omega
      · rcases List.mem_cons.mp hx1 with rfl | hx2
        · refine le_trans hc ?_
          split <;> omega
        · exact ih _ x (List.mem_cons_of_mem _ hx2)

theorem prune_of_le (jm : ℕ) (reg : Registry) (h : reg.length ≤ jm) :
    prune_jobs_if_needed jm reg = reg := by
  rw [prune_jobs_if_needed.eq_def, if_pos h]

theorem prune_of_gt (jm : ℕ) (a : RegJob) (t : List RegJob)
    (h : jm < (a :: t).length) :
    prune_jobs_if_needed jm (a :: t)
      = (a :: t).eraseP (fun x => x.id = (oldestJob a t).id) := by
  rw [prune_jobs_if_needed.eq_def, if_neg (by omega)]

theorem length_prune_gt (jm : ℕ) (a : RegJob) (t : List RegJob)
    (h : jm < (a :: t).length) :
    (prune_jobs_if_needed jm (a :: t)).length = (a :: t).length - 1 := by
  rw [prune_of_gt jm a t h]
  exact List.length_eraseP_of_mem (oldestJob_mem a t) (by simp)

theorem length_create_job_le (jm : ℕ) (reg : Registry) (j : RegJob)
    (h : reg.length ≤ jm + 1) : (create_job jm reg j).length ≤ jm + 1 := by
  rw [create_job]
  rw [List.length_append]
  by_cases hle : reg.length ≤ jm
  · rw [prune_of_le jm reg hle]
    simp
    omega
  · match reg with
    | [] => simp at hle
    | a :: t =>
        rw [length_prune_gt jm a t (by omega)]
        simp only [List.length_cons, List.length_nil] at h hle ⊢
        omega

/-- C3: the claim's reading of pruning.  Falsified below: with
`JOBS_MAX = 2`, inserting a third job leaves the registry at three entries
and the oldest job still present — `_prune_jobs_if_needed` evicts only when
the registry already holds strictly more than `JOBS_MAX` entries before the
insert, so the `(JOBS_MAX+1)`-th insert evicts nothing. -/
theorem c3_counterexample :
    create_job 2 (create_job 2 (create_job 2 [] ⟨"a", 1⟩) ⟨"b", 2⟩) ⟨"c", 3⟩
        = [⟨"a", 1⟩, ⟨"b", 2⟩, ⟨"c", 3⟩] ∧
    (⟨"a", 1⟩ : RegJob)
        ∈ create_job 2 (create_job 2 (create_job 2 [] ⟨"a", 1⟩) ⟨"b", 2⟩) ⟨"c", 3⟩ ∧
    (create_job 2 (create_job 2 (create_job 2 [] ⟨"a", 1⟩) ⟨"b", 2⟩) ⟨"c", 3⟩).length
        = 2 + 1 := by
  refine ⟨?_, ?_, ?_⟩ <;> decide

/-- C3 (amended): an insert evicts only when the registry holds strictly more
than `JOBS_MAX` entries at insert time; in that case exactly the single
oldest-by-`created_at` entry (first-inserted among ties) is removed before
the insert, so the first insert to evict is the `(JOBS_MAX+2)`-th. -/
theorem c3_prune_amended (jm : ℕ) (reg : Registry) (j : RegJob) :
    (reg.length ≤ jm → create_job jm reg j = reg ++ [j]) ∧
    (∀ a t, reg = a :: t → jm < reg.length →
      create_job jm reg j
          = reg.eraseP (fun x => x.id = (oldestJob a t).id) ++ [j] ∧
      oldestJob a t ∈ reg ∧
      (∀ x ∈ reg, (oldestJob a t).created_at ≤ x.created_at) ∧
      (create_job jm reg j).length = reg.length) := by
  constructor
  · intro h
    rw [create_job, prune_of_le jm reg h]
  · rintro a t rfl h
    refine ⟨?_, oldestJob_mem a t, oldestJob_le a t, ?_⟩
    · rw [create_job, prune_of_gt jm a t h]
    · rw [create_job, List.length_append, length_prune_gt jm a t h]
      simp only [List.length_cons, List.length_nil] at h ⊢
      omega

theorem c3_prune_amended_witness :
    ([⟨"a", 1⟩] : Registry).length ≤ 2 ∧
    create_job 2 [⟨"a", 1⟩] ⟨"b", 2⟩ = [⟨"a", 1⟩] ++ [⟨"b", 2⟩] :=
  ⟨by decide, (c3_prune_amended 2 [⟨"a", 1⟩] ⟨"b", 2⟩).1 (by decide)⟩

/-- C10: each job creation evicts at most one entry, eviction happens only
when the registry already holds strictly more than `JOBS_MAX` entries at
insert time, and any sequence of creations keeps the registry at no more
than `JOBS_MAX + 1` entries. -/
theorem c10_registry_bound :
    (∀ (jm : ℕ) (reg : Registry), reg.length ≤ jm →
      prune_jobs_if_needed jm reg = reg) ∧
    (∀ (jm : ℕ) (reg : Registry),
      reg.length - 1 ≤ (prune_jobs_if_needed jm reg).length) ∧
    (∀ (jm : ℕ) (reg : Registry) (j : RegJob),
      reg.length ≤ jm + 1 → (create_job jm reg j).length ≤ jm + 1) ∧
    (∀ (jm : ℕ) (js : List RegJob),
      (js.foldl (create_job jm) []).length ≤ jm + 1) := by
  refine ⟨prune_of_le, ?_, length_create_job_le, ?_⟩
  · intro jm reg
    by_cases hle : reg.length ≤ jm
    · rw [prune_of_le jm reg hle]
      omega
    · match reg with
      | [] => simp at hle
      | a :: t =>
          rw [length_prune_gt jm a t (by omega)]
  · intro jm js
    have key : ∀ (acc : Registry), acc.length ≤ jm + 1 →
        (js.foldl (create_job jm) acc).length ≤ jm + 1 := by
      induction js with
      | nil => intro acc h; simpa using h
      | cons x xs ih =>
          intro acc h
          exact ih (create_job jm acc x) (length_create_job_le jm acc x h)
    exact key [] (by simp)

theorem c10_registry_bound_witness :
    ([⟨"a", 1⟩, ⟨"b", 2⟩] : Registry).length ≤ 1 + 1 ∧
    (create_job 1 [⟨"a", 1⟩, ⟨"b", 2⟩] ⟨"c", 3⟩).length ≤ 1 + 1 :=
  ⟨by decide, c10_registry_bound.2.2.1 1 [⟨"a", 1⟩, ⟨"b", 2⟩] ⟨"c", 3⟩ (by decide)⟩

/-! ## Dynamic font sizing bounds (C4) -/

theorem mem_rangeDownAux (stop step : ℤ) (hs : 0 < step) :
    ∀ (n : ℕ) (start x : ℤ), x ∈ rangeDownAux stop step n start →
      stop < x ∧ x ≤ start := by
  intro n
  induction n with
  | zero =>
      intro start x hx
      simp [rangeDownAux] at hx
  | succ n ih =>
      intro start x hx
      rw [rangeDownAux] at hx
      by_cases hle : start ≤ stop
      · rw [if_pos hle] at hx
        simp at hx
      · rw [if_neg hle] at hx
        rcases List.mem_cons.mp hx with rfl | hx2
        · omega
        · have := ih (start - step) x hx2
          omega

theorem mem_rangeDown (a b s x : ℤ) (hx : x ∈ rangeDown a b s) :
    b < x ∧ x ≤ a := by
  rw [rangeDown] at hx
  by_cases hs : s ≤ 0
  · rw [if_pos hs] at hx
    simp at hx
  · rw [if_neg hs] at hx
    exact mem_rangeDownAux b s (by omega) (a - b).toNat a x hx

theorem betterCandidate_bounds (P : ℤ → Prop) (s : ℤ) (lc : ℕ)
    (best : Option (ℤ × ℕ)) (hPs : P s) (hb : ∀ p, best = some p → P p.1) :
    ∀ q, betterCandidate s lc best = some q → P q.1 := by
  intro q hq
  rcases best with _ | ⟨bs, bl⟩
  · simp only [betterCandidate, Option.some.injEq] at hq
    rw [← hq]
    exact hPs
  · have hPbs : P bs := hb (bs, bl) rfl
    simp only [betterCandidate] at hq
    split at hq <;> simp only [Option.some.injEq] at hq <;> rw [← hq]
    · exact hPs
    · exact hPbs

theorem scanSizes_bounds (fe : FontEnv) (text : String) (maxW target : ℕ)
    (minS : ℤ) (P : ℤ → Prop) :
    ∀ (l : List ℤ) (best : Option (ℤ × ℕ)),
      (∀ s ∈ l, P s) → (∀ p, best = some p → P p.1) →
      ∀ p, scanSizes fe text maxW target minS l best = some p → P p.1 := by
  intro l
  induction l with
  | nil =>
      intro best _ hb p hp
      exact hb p hp
  | cons s rest ih =>
      intro best hl hb p hp
      have hPs : P s := hl s (List.mem_cons_self _ _)
      have hrest : ∀ x ∈ rest, P x := fun x hx => hl x (List.mem_cons_of_mem _ hx)
      have hbest := betterCandidate_bounds P s
        (wrap_text_improved (fe.w s) text maxW).length best hPs hb
      simp only [scanSizes] at hp
      split at hp
      · split at hp
        · exact hbest p hp
        · exact ih _ hrest hbest p hp
      · exact ih best hrest hb p hp

/-- C4 (amended): whenever the base `task_font_size` itself lies within
`[min_font_size, max_font_size]`, `find_optimal_font_size` returns a size in
that interval.  (The unamended claim fails because the base size is the
fallback and the ceiling of the fast path, and nothing ties it to the
configured interval — see the counterexample.) -/
theorem c4_font_size_bounds_amended (fe : FontEnv) (cfg : Config)
    (text : String) (maxW target : ℕ)
    (hmin : cfg.min_font_size.getD 32 ≤ cfg.task_font_size.getD 72)
    (hmax : cfg.task_font_size.getD 72
        ≤ cfg.max_font_size.getD (min 96 (cfg.task_font_size.getD 72 + 24))) :
    cfg.min_font_size.getD 32 ≤ find_optimal_font_size fe cfg text maxW target ∧
    find_optimal_font_size fe cfg text maxW target
      ≤ cfg.max_font_size.getD (min 96 (cfg.task_font_size.getD 72 + 24)) := by
  have hscan : ∀ p, scanSizes fe text maxW target (cfg.min_font_size.getD 32)
      (rangeDown (cfg.max_font_size.getD (min 96 (cfg.task_font_size.getD 72 + 24)))
        (cfg.min_font_size.getD 32 - 1) 4) none = some p →
      cfg.min_font_size.getD 32 ≤ p.1 ∧
        p.1 ≤ cfg.max_font_size.getD (min 96 (cfg.task_font_size.getD 72 + 24)) := by
    refine scanSizes_bounds fe text maxW target _
      (fun z => cfg.min_font_size.getD 32 ≤ z ∧
        z ≤ cfg.max_font_size.getD (min 96 (cfg.task_font_size.getD 72 + 24)))
      _ none ?_ ?_
    · intro s hs
      have := mem_rangeDown _ _ _ s hs
      omega
    · intro p hp
      exact absurd hp (by simp)
  rw [find_optimal_font_size]
  split
  · rcases hfind : (rangeDown (cfg.task_font_size.getD 72 - 2)
        (max (cfg.min_font_size.getD 32) (cfg.task_font_size.getD 72 - 20)) 2).find?
        (fun s => fe.w s text ≤ maxW) with _ | s
    · rcases hsc : scanSizes fe text maxW target (cfg.min_font_size.getD 32)
          (rangeDown (cfg.max_font_size.getD (min 96 (cfg.task_font_size.getD 72 + 24)))
            (cfg.min_font_size.getD 32 - 1) 4) none with _ | p
      · dsimp only
        exact ⟨hmin, hmax⟩
      · dsimp only
        rcases p with ⟨s1, lc1⟩
        exact hscan (s1, lc1) hsc
    · dsimp only
      have hmem := mem_rangeDown _ _ _ s (List.mem_of_find?_eq_some hfind)
      have hmaxle := le_max_left (cfg.min_font_size.getD 32)
        (cfg.task_font_size.getD 72 - 20)
      omega
  · rcases hsc : scanSizes fe text maxW target (cfg.min_font_size.getD 32)
        (rangeDown (cfg.max_font_size.getD (min 96 (cfg.task_font_size.getD 72 + 24)))
          (cfg.min_font_size.getD 32 - 1) 4) none with _ | p
    · dsimp only
      exact ⟨hmin, hmax⟩
    · dsimp only
      rcases p with ⟨s1, lc1⟩
      exact hscan (s1, lc1) hsc

theorem c4_font_size_bounds_amended_witness :
    (({} : Config).min_font_size.getD 32 ≤ ({} : Config).task_font_size.getD 72 ∧
      ({} : Config).task_font_size.getD 72
        ≤ ({} : Config).max_font_size.getD
            (min 96 (({} : Config).task_font_size.getD 72 + 24))) ∧
    (({} : Config).min_font_size.getD 32
        ≤ find_optimal_font_size flatFont {} "Mount Pegboard" 480 3 ∧
      find_optimal_font_size flatFont {} "Mount Pegboard" 480 3
        ≤ ({} : Config).max_font_size.getD
            (min 96 (({} : Config).task_font_size.getD 72 + 24))) :=
  ⟨⟨by decide, by decide⟩,
    c4_font_size_bounds_amended flatFont {} "Mount Pegboard" 480 3 (by decide) (by decide)⟩

/-- C4 counterexample: with `task_font_size = 100`, `min_font_size = 32`,
`max_font_size = 36` and a text wrapping to 7 lines at every candidate size,
no candidate qualifies (more than 6 lines), so the function falls back to
the base size 100, outside `[32, 36]`. -/
theorem c4_counterexample :
    find_optimal_font_size sizedFont cfgBaseAboveMax "a a a a a a a" 10 3 = 100 ∧
    cfgBaseAboveMax.min_font_size.getD 32 = 32 ∧
    cfgBaseAboveMax.max_font_size.getD
        (min 96 (cfgBaseAboveMax.task_font_size.getD 72 + 24)) = 36 ∧
    ¬((100 : ℤ) ≤ 36) := by
  refine ⟨by decide, rfl, rfl, by decide⟩

/-! ## Word-wrap width soundness (C6) -/

theorem breakCharsLoop_sound (font : Measure) (maxW : ℕ) :
    ∀ (cs : List Char) (current : String),
      (current.isEmpty ∨ font current ≤ maxW ∨ current.length ≤ 1) →
      ∀ line ∈ breakCharsLoop font maxW cs current,
        font line ≤ maxW ∨ line.length ≤ 1 := by
  intro cs
  induction cs with
  | nil =>
      intro current hc line hl
      simp only [breakCharsLoop] at hl
      by_cases he : current.isEmpty
      · rw [if_pos he] at hl
        simp at hl
      · rw [if_neg he] at hl
        rw [List.mem_singleton] at hl
        subst hl
        rcases hc with h | h | h
        · exact absurd h he
        · exact Or.inl h
        · exact Or.inr h
  | cons c cs ih =>
      intro current hc line hl
      simp only [breakCharsLoop] at hl
      have hone : (Char.toString c).length ≤ 1 := le_of_eq rfl
      by_cases hf : font (current.push c) ≤ maxW
      · rw [if_pos hf] at hl
        exact ih (current.push c) (Or.inr (Or.inl hf)) line hl
      · rw [if_neg hf] at hl
        by_cases he : current.isEmpty
        · rw [if_pos he, List.nil_append] at hl
          exact ih c.toString (Or.inr (Or.inr hone)) line hl
        · rw [if_neg he] at hl
          rcases List.mem_append.mp hl with h1 | h1
          · rw [List.mem_singleton] at h1
            subst h1
            rcases hc with h | h | h
            · exact absurd h he
            · exact Or.inl h
            · exact Or.inr h
          · exact ih c.toString (Or.inr (Or.inr hone)) line h1

theorem break_long_word_sound (font : Measure) (maxW : ℕ) (word : String)
    (hw : word.length ≤ 8 ∨ ∀ sep ∈ sepChars, containsChar word sep = false) :
    ∀ line ∈ break_long_word font maxW word,
      font line ≤ maxW ∨ line.length ≤ 1 := by
  intro line hl
  rw [break_long_word] at hl
  by_cases he : word.isEmpty
  · rw [if_pos he, List.mem_singleton] at hl
    subst hl
    exact Or.inr (by decide)
  · rw [if_neg he] at hl
    have hnone : (if word.length > 8 then
        sepChars.find? (fun sep => containsChar word sep) else none) = none := by
      rcases hw with h | h
      · rw [if_neg (by omega)]
      · by_cases h8 : word.length > 8
        · rw [if_pos h8, List.find?_eq_none]
          intro x hx
          simp [h x hx]
        · rw [if_neg h8]
    rw [hnone] at hl
    dsimp only at hl
    by_cases hr : (breakCharsLoop font maxW word.toList "").isEmpty
    · rw [if_pos hr, List.mem_singleton] at hl
      subst hl
      exact Or.inr (by decide)
    · rw [if_neg hr] at hl
      exact breakCharsLoop_sound font maxW word.toList "" (Or.inl rfl) line hl

theorem wrapLoop_sound (font : Measure) (maxW : ℕ) :
    ∀ (ws : List String) (current : String),
      (∀ word ∈ ws, word.length ≤ 8 ∨
        ∀ sep ∈ sepChars, containsChar word sep = false) →
      (current.isEmpty ∨ font current ≤ maxW) →
      ∀ line ∈ wrapLoop font maxW ws current,
        font line ≤ maxW ∨ line.length ≤ 1 := by
  intro ws
  induction ws with
  | nil =>
      intro current _ hc line hl
      simp only [wrapLoop] at hl
      by_cases he : current.isEmpty
      · rw [if_pos he] at hl
        simp at hl
      · rw [if_neg he] at hl
        rw [List.mem_singleton] at hl
        subst hl
        rcases hc with h | h
        · exact absurd h he
        · exact Or.inl h
  | cons word rest ih =>
      intro current hws hc line hl
      have hword := hws word (List.mem_cons_self _ _)
      have hrest : ∀ x ∈ rest, x.length ≤ 8 ∨
          ∀ sep ∈ sepChars, containsChar x sep = false :=
        fun x hx => hws x (List.mem_cons_of_mem _ hx)
      simp only [wrapLoop] at hl
      by_cases h1 : font (current ++ (if current.isEmpty then "" else " ") ++ word) ≤ maxW
      · rw [if_pos h1] at hl
        exact ih _ hrest (Or.inr h1) line hl
      · rw [if_neg h1] at hl
        by_cases he : current.isEmpty
        · rw [if_pos he] at hl
          rcases List.mem_append.mp hl with h2 | h2
          · exact break_long_word_sound font maxW word hword line h2
          · exact ih "" hrest (Or.inl rfl) line h2
        · rw [if_neg he] at hl
          rcases List.mem_append.mp hl with h2 | h2
          · rw [List.mem_singleton] at h2
            subst h2
            rcases hc with h | h
            · exact absurd h he
            · exact Or.inl h
          · by_cases h3 : font word > maxW
            · rw [if_pos h3] at h2
              rcases List.mem_append.mp h2 with h4 | h4
              · exact break_long_word_sound font maxW word hword line h4
              · exact ih "" hrest (Or.inl rfl) line h4
            · rw [if_neg h3] at h2
              exact ih word hrest (Or.inr (by omega)) line h2

/-- C6 (amended): every wrapped line measures at most `max_width`, or has at
most one character, PROVIDED no word both exceeds 8 characters and contains
one of the separators `-`,`_`,`.` — for such words the separator-based
splitter emits `part+separator` pieces without any width check (see the
counterexample).  The at-most-one-character escape covers exactly the
claim's unbreakable single-character fallback plus the empty line returned
for empty input. -/
theorem c6_wrap_width_amended (font : Measure) (text : String) (maxW : ℕ)
    (hw : ∀ word ∈ pySplit text, word.length ≤ 8 ∨
      ∀ sep ∈ sepChars, containsChar word sep = false) :
    ∀ line ∈ wrap_text_improved font text maxW,
      font line ≤ maxW ∨ line.length ≤ 1 := by
  intro line hl
  rw [wrap_text_improved] at hl
  by_cases he : text.isEmpty
  · rw [if_pos he, List.mem_singleton] at hl
    subst hl
    exact Or.inr (by decide)
  · rw [if_neg he] at hl
    dsimp only at hl
    by_cases hr : (wrapLoop font maxW (pySplit text) "").isEmpty
    · rw [if_pos hr, List.mem_singleton] at hl
      subst hl
      exact Or.inr (by decide)
    · rw [if_neg hr] at hl
      exact wrapLoop_sound font maxW (pySplit text) "" hw (Or.inl rfl) line hl

theorem c6_wrap_width_amended_witness :
    (∀ word ∈ pySplit "Mount Pegboard", word.length ≤ 8 ∨
      ∀ sep ∈ sepChars, containsChar word sep = false) ∧
    (∀ line ∈ wrap_text_improved lenFont "Mount Pegboard" 80,
      lenFont line ≤ 80 ∨ line.length ≤ 1) :=
  ⟨by decide, c6_wrap_width_amended lenFont "Mount Pegboard" 80 (by decide)⟩

/-- C6 counterexample: breaking the 11-character word `"abcdefghi.x"` at its
`.` emits the piece `"abcdefghi."` without a width check: at 10 px per
character and `max_width = 50` that line measures 100 px and has 10
characters — not a single-character fallback. -/
theorem c6_counterexample :
    wrap_text_improved lenFont "abcdefghi.x" 50 = ["abcdefghi.", "x"] ∧
    ¬(lenFont "abcdefghi." ≤ 50) ∧
    ("abcdefghi." : String).length ≠ 1 :=
  ⟨by decide, by decide, by decide⟩

/-! ## Canvas width invariant (C5) -/

theorem render_large_width (fe : FontEnv) (cfg : Config) (text : String) :
    (render_large_text_image fe cfg text).width = cfg.receipt_width.getD 512 := rfl

/-- C5: both renderers always produce a canvas whose pixel width is exactly
the configured `receipt_width` (512 when the key is absent) — the with-flair
renderer's fallback paths delegate to the text-only renderer, which shares
the same width. -/
theorem c5_canvas_width (fe : FontEnv) (cfg : Config) (text : String)
    (flair : Option (ℕ × ℕ)) :
    (render_large_text_image fe cfg text).width = cfg.receipt_width.getD 512 ∧
    (render_task_with_flair_image fe cfg text flair).width
      = cfg.receipt_width.getD 512 := by
  refine ⟨rfl, ?_⟩
  rw [render_task_with_flair_image.eq_def]
  rcases flair with _ | dims
  · exact render_large_width fe cfg text
  · dsimp only
    split <;> split <;> exact render_large_width fe cfg text

/-! ## Transport trace facts (C1, C7, C9) -/

theorem sleepsOf_append (a b : List Ev) :
    sleepsOf (a ++ b) = sleepsOf a ++ sleepsOf b :=
  List.filterMap_append a b _

theorem cutCount_append (a b : List Ev) :
    cutCount (a ++ b) = cutCount a + cutCount b := by
  simp [cutCount, List.filter_append]

theorem sleepsOf_printItem (fe : FontEnv) (env : WorkerEnv) (cfg : Config)
    (item : Item) (c : Bool) :
    sleepsOf (printItem fe env cfg item c) = [] := by
  rw [printItem]
  split
  · rfl
  · rcases hf : item.flair with _ | ⟨ft, fv⟩ <;>
      simp [sleepsOf, List.filterMap_append, hf]
    · rintro a h1 (rfl | rfl) <;> rfl
    · constructor
      · rintro a h1 (rfl | rfl) <;> rfl
      · rintro a h1 h2 rfl
        rfl

theorem cutCount_printItem (fe : FontEnv) (env : WorkerEnv) (cfg : Config)
    (item : Item) (c : Bool) :
    cutCount (printItem fe env cfg item c)
      = if (pyStrip item.task).isEmpty then 0 else if c then 1 else 0 := by
  rw [printItem]
  split
  · simp_all [cutCount]
  · rcases hf : item.flair with _ | ⟨ft, fv⟩ <;>
      simp [cutCount, List.filter_append, hf] <;>
      split_ifs <;>
      simp_all

theorem sleepsOf_printLoop_tear (fe : FontEnv) (env : WorkerEnv) (cfg : Config)
    (d : ℚ) (total : ℕ) :
    ∀ (l : List Item) (i : ℕ), i + l.length = total + 1 →
      sleepsOf (printLoop fe env cfg true d total i l)
        = List.replicate (l.length - 1) d := by
  intro l
  induction l with
  | nil =>
      intro i _
      rfl
  | cons it rest ih =>
      intro i hi
      have h1 : sleepsOf (printLoop fe env cfg true d total i (it :: rest))
          = sleepsOf (if True ∧ i < total then [Ev.sleep d] else [])
            ++ sleepsOf (printLoop fe env cfg true d total (i + 1) rest) := by
        simp only [printLoop, sleepsOf_append, sleepsOf_printItem, List.nil_append,
          true_and]
      cases rest with
      | nil =>
          have hlt : ¬ (i < total) := by
            simp only [List.length_cons, List.length_nil] at hi
            omega
          rw [h1, if_neg (by simp [hlt])]
          rfl
      | cons r rs =>
          have hlt : i < total := by
            simp only [List.length_cons] at hi
            omega
          rw [h1, if_pos ⟨trivial, hlt⟩,
            ih (i + 1) (by simp only [List.length_cons] at hi ⊢; omega)]
          simp [sleepsOf, List.replicate_succ]

theorem sleepsOf_printLoop_cut (fe : FontEnv) (env : WorkerEnv) (cfg : Config)
    (d : ℚ) (total : ℕ) :
    ∀ (l : List Item) (i : ℕ),
      sleepsOf (printLoop fe env cfg false d total i l) = [] := by
  intro l
  induction l with
  | nil =>
      intro i
      rfl
  | cons it rest ih =>
      intro i
      simp only [printLoop, sleepsOf_append, sleepsOf_printItem, List.nil_append,
        false_and, if_false, ih]
      rfl

theorem cutCount_printLoop_tear (fe : FontEnv) (env : WorkerEnv) (cfg : Config)
    (d : ℚ) (total : ℕ) :
    ∀ (l : List Item) (i : ℕ),
      cutCount (printLoop fe env cfg true d total i l) = 0 := by
  intro l
  induction l with
  | nil =>
      intro i
      rfl
  | cons it rest ih =>
      intro i
      simp only [printLoop, cutCount_append, cutCount_printItem, ih]
      split_ifs <;> simp_all [cutCount]

theorem cutCount_printLoop_cut (fe : FontEnv) (env : WorkerEnv) (cfg : Config)
    (d : ℚ) (total : ℕ) :
    ∀ (l : List Item) (i : ℕ),
      cutCount (printLoop fe env cfg false d total i l)
        = (l.filter (fun it => !(pyStrip it.task).isEmpty)).length := by
  intro l
  induction l with
  | nil =>
      intro i
      rfl
  | cons it rest ih =>
      intro i
      simp only [printLoop, cutCount_append, cutCount_printItem, ih,
        List.filter_cons]
      by_cases he : (pyStrip it.task).isEmpty
      · simp [he, cutCount]
      · simp [he, cutCount]
        omega

theorem print_tasks_trace (fe : FontEnv) (env : WorkerEnv) (cfg : Config)
    (items : List Item) (opts : Option PrintOptions)
    (hc : env.config = some cfg) (hk : env.connectOk = true) :
    (print_tasks fe env items opts).trace
      = printLoop fe env cfg (decide (0 < tearDelay opts)) (tearDelay opts)
          items.length 1 items := by
  rw [print_tasks, hc]
  dsimp only
  rw [hk]
  rfl

/-- C1: on a reachable printer with a saved config, a "tasks" job with a
positive tear delay `d` sleeps exactly `N−1` times, each for `d` seconds,
and never cuts; with the delay absent or 0 it never sleeps and, when every
item has non-empty trimmed text, cuts exactly once per item. -/
theorem c1_tear_off_law (fe : FontEnv) (env : WorkerEnv) (cfg : Config)
    (items : List Item) (opts : Option PrintOptions)
    (hc : env.config = some cfg) (hk : env.connectOk = true) :
    (0 < tearDelay opts →
      sleepsOf (print_tasks fe env items opts).trace
          = List.replicate (items.length - 1) (tearDelay opts) ∧
      cutCount (print_tasks fe env items opts).trace = 0) ∧
    (tearDelay opts = 0 →
      sleepsOf (print_tasks fe env items opts).trace = [] ∧
      ((∀ it ∈ items, ¬(pyStrip it.task).isEmpty) →
        cutCount (print_tasks fe env items opts).trace = items.length)) := by
  rw [print_tasks_trace fe env cfg items opts hc hk]
  constructor
  · intro hd
    rw [decide_eq_true hd]
    exact ⟨sleepsOf_printLoop_tear fe env cfg (tearDelay opts) items.length items 1
        (by omega),
      cutCount_printLoop_tear fe env cfg (tearDelay opts) items.length items 1⟩
  · intro hd
    have hdec : decide (0 < tearDelay opts) = false := by
      rw [hd]
      decide
    rw [hdec]
    refine ⟨sleepsOf_printLoop_cut fe env cfg (tearDelay opts) items.length items 1, ?_⟩
    intro hall
    rw [cutCount_printLoop_cut fe env cfg (tearDelay opts) items.length items 1]
    have : items.filter (fun it => !(pyStrip it.task).isEmpty) = items := by
      rw [List.filter_eq_self]
      intro a ha
      simpa using hall a ha
    rw [this]

theorem c1_tear_off_law_witness :
    (envOk.config = some {} ∧ envOk.connectOk = true ∧
      (0 : ℚ) < tearDelay (some ⟨some 3⟩)) ∧
    sleepsOf (print_tasks flatFont envOk [itemA, itemA, itemA]
        (some ⟨some 3⟩)).trace
      = List.replicate ([itemA, itemA, itemA].length - 1)
          (tearDelay (some ⟨some 3⟩)) ∧
    cutCount (print_tasks flatFont envOk [itemA, itemA, itemA]
        (some ⟨some 3⟩)).trace = 0 :=
  ⟨⟨rfl, rfl, by decide⟩,
    (c1_tear_off_law flatFont envOk {} [itemA, itemA, itemA] (some ⟨some 3⟩)
      rfl rfl).1 (by decide)⟩

/-- C9: an item whose text is empty after trimming produces no transport
events at all; in tear-off mode the `N−1` inter-item sleeps happen
regardless of which items were skipped; and in cut mode the number of cut
commands equals the number of items with non-empty trimmed text. -/
theorem c9_empty_item_behavior (fe : FontEnv) (env : WorkerEnv) (cfg : Config)
    (items : List Item) (opts : Option PrintOptions) (it : Item) (c : Bool)
    (hc : env.config = some cfg) (hk : env.connectOk = true) :
    ((pyStrip it.task).isEmpty → printItem fe env cfg it c = []) ∧
    (0 < tearDelay opts →
      sleepsOf (print_tasks fe env items opts).trace
        = List.replicate (items.length - 1) (tearDelay opts)) ∧
    (tearDelay opts = 0 →
      cutCount (print_tasks fe env items opts).trace
        = (items.filter (fun x => !(pyStrip x.task).isEmpty)).length) := by
  refine ⟨?_, ?_, ?_⟩
  · intro he
    rw [printItem, if_pos he]
  · intro hd
    rw [print_tasks_trace fe env cfg items opts hc hk, decide_eq_true hd]
    exact sleepsOf_printLoop_tear fe env cfg (tearDelay opts) items.length items 1
      (by omega)
  · intro hd
    have hdec : decide (0 < tearDelay opts) = false := by
      rw [hd]
      decide
    rw [print_tasks_trace fe env cfg items opts hc hk, hdec]
    exact cutCount_printLoop_cut fe env cfg (tearDelay opts) items.length items 1

theorem c9_empty_item_behavior_witness :
    ((pyStrip itemBlank.task).isEmpty = true ∧ envOk.config = some {} ∧
      envOk.connectOk = true) ∧
    printItem flatFont envOk {} itemBlank true = [] :=
  ⟨⟨by decide, rfl, rfl⟩,
    (c9_empty_item_behavior flatFont envOk {} [] none itemBlank true rfl rfl).1
      (by decide)⟩

/-- C7: with the producer-side clamp in front of the worker, a negative
requested delay behaves as absent (cut mode, no sleeps), a delay above 60
behaves as exactly 60 seconds, and every inter-item sleep lasts at most 60
(and is positive). -/
theorem c7_delay_clamped (fe : FontEnv) (env : WorkerEnv) (cfg : Config)
    (items : List Item) (v : ℚ)
    (hc : env.config = some cfg) (hk : env.connectOk = true) :
    (v < 0 → clamp_delay (some v) = none ∧
      sleepsOf (print_tasks fe env items (clampedOptions v)).trace = [] ∧
      cutCount (print_tasks fe env items (clampedOptions v)).trace
        = (items.filter (fun x => !(pyStrip x.task).isEmpty)).length) ∧
    (60 < v →
      sleepsOf (print_tasks fe env items (clampedOptions v)).trace
        = List.replicate (items.length - 1) 60) ∧
    (∀ d ∈ sleepsOf (print_tasks fe env items (clampedOptions v)).trace,
      0 < d ∧ d ≤ 60) := by
  have htrace := print_tasks_trace fe env cfg items (clampedOptions v) hc hk
  have hdelay : tearDelay (clampedOptions v)
      = match clamp_delay (some v) with | none => 0 | some d => d := by
    rw [clampedOptions, tearDelay]
    rcases clamp_delay (some v) with _ | d <;> rfl
  refine ⟨?_, ?_, ?_⟩
  · intro hv
    have hcl : clamp_delay (some v) = none := by
      rw [clamp_delay, if_pos hv]
    have hd0 : tearDelay (clampedOptions v) = 0 := by
      rw [hdelay, hcl]
    have hdec : decide (0 < tearDelay (clampedOptions v)) = false := by
      rw [hd0]
      decide
    rw [htrace, hdec]
    exact ⟨hcl, sleepsOf_printLoop_cut fe env cfg _ items.length items 1,
      cutCount_printLoop_cut fe env cfg _ items.length items 1⟩
  · intro hv
    have hcl : clamp_delay (some v) = some 60 := by
      rw [clamp_delay, if_neg (by linarith), if_pos hv]
    have hd60 : tearDelay (clampedOptions v) = 60 := by
      rw [hdelay, hcl]
    have hdec : decide (0 < tearDelay (clampedOptions v)) = true := by
      rw [hd60]
      decide
    rw [htrace, hdec, ← hd60]
    exact sleepsOf_printLoop_tear fe env cfg _ items.length items 1 (by omega)
  · intro d hd
    rw [htrace] at hd
    rcases hcl : clamp_delay (some v) with _ | d0
    · have hd0 : tearDelay (clampedOptions v) = 0 := by
        rw [hdelay, hcl]
      have hdec : decide (0 < tearDelay (clampedOptions v)) = false := by
        rw [hd0]
        decide
      rw [hdec, sleepsOf_printLoop_cut fe env cfg _ items.length items 1] at hd
      simp at hd
    · have hdd : tearDelay (clampedOptions v) = d0 := by
        rw [hdelay, hcl]
      have hbounds : 0 < d0 ∧ d0 ≤ 60 := by
        rw [clamp_delay] at hcl
        by_cases h1 : v < 0
        · rw [if_pos h1] at hcl
          exact absurd hcl (by simp)
        · rw [if_neg h1] at hcl
          by_cases h2 : v > 60
          · rw [if_pos h2] at hcl
            injection hcl with hval
            rw [← hval]
            norm_num
          · rw [if_neg h2] at hcl
            by_cases h3 : v > 0
            · rw [if_pos h3] at hcl
              injection hcl with hval
              rw [← hval]
              exact ⟨h3, by linarith⟩
            · rw [if_neg h3] at hcl
              exact absurd hcl (by simp)
      have hdec : decide (0 < tearDelay (clampedOptions v)) = true := by
        rw [hdd]
        exact decide_eq_true hbounds.1
      rw [hdec, hdd,
        sleepsOf_printLoop_tear fe env cfg d0 items.length items 1 (by omega)] at hd
      have := List.eq_of_mem_replicate hd
      subst this
      exact hbounds

theorem c7_delay_clamped_witness :
    (envOk.config = some {} ∧ envOk.connectOk = true ∧ (60 : ℚ) < 100) ∧
    sleepsOf (print_tasks flatFont envOk [itemA, itemA]
        (clampedOptions 100)).trace
      = List.replicate ([itemA, itemA].length - 1) 60 :=
  ⟨⟨rfl, rfl, by decide⟩,
    (c7_delay_clamped flatFont envOk {} [itemA, itemA] 100 rfl rfl).2.1
      (by decide)⟩

/-! ## Worker loop outcomes (C2) and FIFO order (C8) -/

/-- C2 counterexample: a transport connect failure is caught inside
`print_tasks`, which merely returns `False`; the worker then sets
`status="error"` WITHOUT writing any error message into the job record —
the `error` field update is `none`, not the captured message the claim
requires. -/
theorem c2_counterexample :
    runJob flatFont envNoConnect jobTasksA = ("error", none) ∧
    (runJob flatFont envNoConnect jobTasksA).2 = none := by
  refine ⟨by decide, by decide⟩

/-- C2 (amended): every processed job ends with status `success` or `error`
and the loop hands every queued job to `runJob` (no exception escapes the
per-job handler by construction); for a "tasks" job with a saved config the
status is `success` exactly when the transport connects, but the error
message is recorded only for exceptions that reach the worker loop (missing
config, unknown job kind) — failures caught inside `print_tasks`, such as a
connect failure, leave the job's `error` field unset. -/
theorem c2_job_status_amended (fe : FontEnv) (env : WorkerEnv) (j : QueuedJob) :
    ((runJob fe env j).1 = "success" ∨ (runJob fe env j).1 = "error") ∧
    (∀ cfg, j.kind = "tasks" → env.config = some cfg →
      (env.connectOk = true → runJob fe env j = ("success", none)) ∧
      (env.connectOk = false → runJob fe env j = ("error", none))) ∧
    (j.kind = "tasks" → env.config = none →
      runJob fe env j
        = ("error", some "No config found. Please complete setup at /setup.")) ∧
    (j.kind ≠ "tasks" → j.kind ≠ "test" →
      runJob fe env j = ("error", some "unknown_job_type")) ∧
    (∀ q, j ∈ q → (j.job_id, runJob fe env j) ∈ workerRun fe env q) := by
  refine ⟨?_, ?_, ?_, ?_, ?_⟩
  · rw [runJob]
    by_cases ht : j.kind = "tasks"
    · rw [if_pos ht]
      rcases hc : env.config with _ | cfg
      · simp [print_tasks, hc]
      · cases hk : env.connectOk <;> simp [print_tasks, hc, hk]
    · rw [if_neg ht]
      by_cases hte : j.kind = "test"
      · rw [if_pos hte]
        rcases ho : j.configOverride with _ | c
        · rcases hc : env.config with _ | cfg
          · simp [do_test_print, ho, hc, Option.orElse]
          · cases hk : env.connectOk <;>
              simp [do_test_print, ho, hc, hk, Option.orElse]
        · cases hk : env.connectOk <;>
            simp [do_test_print, ho, hk, Option.orElse]
      · rw [if_neg hte]
        simp
  · intro cfg ht hc
    constructor <;> intro hk <;>
      simp [runJob, ht, print_tasks, hc, hk]
  · intro ht hc
    simp [runJob, ht, print_tasks, hc]
  · intro ht hte
    simp [runJob, ht, hte]
  · intro q hq
    rw [workerRun]
    exact List.mem_map_of_mem _ hq

theorem c2_job_status_amended_witness :
    (jobTasksA.kind = "tasks" ∧ envOk.config = some {} ∧
      envOk.connectOk = true) ∧
    runJob flatFont envOk jobTasksA = ("success", none) :=
  ⟨⟨rfl, rfl, rfl⟩,
    ((c2_job_status_amended flatFont envOk jobTasksA).2.1 {} rfl rfl).1 rfl⟩

theorem runningIds_workerTrace (fe : FontEnv) (env : WorkerEnv) :
    ∀ q : List QueuedJob,
      runningIds (workerTrace fe env q) = q.map QueuedJob.job_id := by
  intro q
  induction q with
  | nil => rfl
  | cons a t ih =>
      simp only [workerTrace, List.flatMap_cons, List.map_cons] at ih ⊢
      simp only [runningIds, List.filterMap_append] at ih ⊢
      rw [ih]
      rfl

theorem workerTrace_indexOf (fe : FontEnv) (env : WorkerEnv) :
    ∀ (q : List QueuedJob), (q.map QueuedJob.job_id).Nodup →
      ∀ (j : ℕ) (hj : j < q.length),
        (workerTrace fe env q).indexOf
            (JobEv.running (q.get ⟨j, hj⟩).job_id) = 2 * j := by
  intro q
  induction q with
  | nil =>
      intro _ j hj
      exact absurd hj (by simp)
  | cons a t ih =>
      intro hnd j hj
      rw [List.map_cons, List.nodup_cons] at hnd
      rcases j with _ | j
      · simp [workerTrace, List.indexOf_cons]
      · have hjt : j < t.length := by
          simpa using hj
        have hmem : (t.get ⟨j, hjt⟩).job_id ∈ t.map QueuedJob.job_id :=
          List.mem_map_of_mem _ (t.get_mem _ _)
        have hne : a.job_id ≠ (t.get ⟨j, hjt⟩).job_id := by
          intro hcontra
          rw [hcontra] at hnd
          exact hnd.1 hmem
        have hstep : workerTrace fe env (a :: t)
            = JobEv.running a.job_id
              :: JobEv.finished a.job_id (runJob fe env a).1
              :: workerTrace fe env t := by
          simp [workerTrace]
        rw [hstep]
        have hbne : (JobEv.running a.job_id
            == JobEv.running ((a :: t).get ⟨j + 1, hj⟩).job_id) = false := by
          rw [List.get_eq_getElem] at hne
          simp only [List.get_cons_succ]
          simp [hne]
        have hbne2 : (JobEv.finished a.job_id (runJob fe env a).1
            == JobEv.running ((a :: t).get ⟨j + 1, hj⟩).job_id) = false := by
          simp
        rw [List.indexOf_cons, hbne, List.indexOf_cons, hbne2]
        simp only [cond_false]
        have := ih hnd.2 j hjt
        simp only [List.get_cons_succ]
        rw [this]
        omega

/-- C8: the worker marks jobs Running in exactly the order they were
enqueued: the sequence of Running transitions equals the queue order, and
for distinct job ids the job at an earlier queue position reaches Running
strictly before any later one. -/
theorem c8_fifo_order (fe : FontEnv) (env : WorkerEnv) (q : List QueuedJob)
    (hnd : (q.map QueuedJob.job_id).Nodup) :
    runningIds (workerTrace fe env q) = q.map QueuedJob.job_id ∧
    ∀ (i j : ℕ) (hij : i < j) (hj : j < q.length),
      (workerTrace fe env q).indexOf
          (JobEv.running (q.get ⟨i, lt_trans hij hj⟩).job_id)
        < (workerTrace fe env q).indexOf
          (JobEv.running (q.get ⟨j, hj⟩).job_id) := by
  refine ⟨runningIds_workerTrace fe env q, ?_⟩
  intro i j hij hj
  rw [workerTrace_indexOf fe env q hnd i (lt_trans hij hj),
    workerTrace_indexOf fe env q hnd j hj]
  omega

theorem c8_fifo_order_witness :
    ([jobTasksA, jobTasksB].map QueuedJob.job_id).Nodup ∧
    runningIds (workerTrace flatFont envOk [jobTasksA, jobTasksB])
      = [jobTasksA, jobTasksB].map QueuedJob.job_id :=
  ⟨by decide,
    (c8_fifo_order flatFont envOk [jobTasksA, jobTasksB] (by decide)).1⟩

end TaskPrinter
